import Mathlib

/-!
# Verification of the work-order analysis engine (`src/analysis.py`)

This file gives a shallow embedding of the classification-and-correlation
engine of the repetitive_defect_monitoring repository and proves or refutes
the specified properties against it.

Modelling conventions:
* Python strings are lists of characters (`PyStr`); only ASCII behaviour of
  `upper`/`lower`/`strip`/`isdigit` and of the regex classes is modelled,
  which covers every keyword, pattern and code the engine manipulates.
* A value that may be pandas-missing (`NaN`, `NaT`, `None`) is an `Option`;
  `pd.isna` is the `none` test.
* `pd.Timestamp` is a calendar tuple (`PyTimestamp`); `pd.NaT` is `none`.
  Following pandas `NaT` semantics (GH 9513), `NaT.date()` is again `NaT`
  and every ordered comparison involving `NaT` is `False`; `NaT.strftime`
  raises `ValueError`.
* Regular-expression matching is embedded operationally: each concrete
  pattern of the source is a deterministic scanner, written next to the
  regex it implements.  For the metadata patterns the scanner is proved
  equivalent to the declarative reading of the regex (`PMatch`).

Each definition mirrors one Python function of `src/analysis.py` and cites
its line numbers.
-/

/-- Python strings, modelled as lists of characters. -/
abbrev PyStr := List Char

/-- ASCII whitespace: the characters stripped by Python `str.strip()` and
matched by the regex class `\s` (space, tab, newline, carriage return,
vertical tab, form feed). -/
def isWsC (c : Char) : Bool :=
  c == ' ' || c == '\t' || c == '\n' || c == '\r' || c == '\x0b' || c == '\x0c'

/-- ASCII decimal digit: Python `str.isdigit` / regex `\d` on ASCII text. -/
def isDigitC (c : Char) : Bool :=
  '0' ≤ c && c ≤ '9'

/-- ASCII word character: regex `\w` on ASCII text. -/
def isWordC (c : Char) : Bool :=
  c.isAlphanum || c == '_'

/-- ASCII `str.upper` on one character. -/
def upperC (c : Char) : Char :=
  if 'a' ≤ c && c ≤ 'z' then Char.ofNat (c.toNat - 32) else c

/-- ASCII `str.lower` on one character. -/
def lowerC (c : Char) : Char :=
  if 'A' ≤ c && c ≤ 'Z' then Char.ofNat (c.toNat + 32) else c

/-- Python `str.upper()`. -/
def upperStr (s : PyStr) : PyStr := s.map upperC

/-- Python `str.lower()`. -/
def lowerStr (s : PyStr) : PyStr := s.map lowerC

/-- Python `str.strip()` (ASCII whitespace). -/
def pyStrip (s : PyStr) : PyStr :=
  ((s.dropWhile isWsC).reverse.dropWhile isWsC).reverse

/-- Python substring test `needle in hay`. -/
def subIn (needle : PyStr) : PyStr → Bool
  | [] => needle.isEmpty
  | c :: t => needle.isPrefixOf (c :: t) || subIn needle t

/-- Lemma: `subIn` agrees with the infix relation on lists. -/
theorem subIn_iff (needle hay : PyStr) : subIn needle hay = true ↔ needle <:+: hay := by
  induction hay with
  | nil =>
    simp [subIn, List.isEmpty_iff]
  | cons c t ih =>
    simp only [subIn, Bool.or_eq_true, List.isPrefixOf_iff_prefix, ih]
    constructor
    · rintro (h | h)
      · exact List.IsPrefix.isInfix h
      · exact h.trans ( List.IsSuffix.isInfix (List.suffix_cons c t))
    · intro h
      rcases List.infix_cons_iff.mp h with h | h
      · exact Or.inl h
      · exact Or.inr h

/-- Source: `src/analysis.py` lines 14-17: keywords indicating a temporary reset. -/
def RESET_KEYWORDS : List PyStr :=
  ["reset", "ops test", "operational test", "op test", "bite test",
   "reset cb", "recycle", "power reset", "system reset"].map String.toList

/-- Source: `src/analysis.py` lines 19-26: keywords indicating a permanent fix. -/
def CORRECTIVE_KEYWORDS : List PyStr :=
  ["replace", "replaced", "replacement", "rpl",
   "change", "changed", "installation", "install", "installed",
   "repair", "repaired", "fix", "fixed",
   "rectify", "rectified", "wiring", "rewire", "rewired", "chaffing", "chafing",
   "adjust", "adjusted", "modification", "modified", "mod",
   "swap", "swapped"].map String.toList

/-- Source: `src/analysis.py` line 29: excluded 2-digit major chapters. -/
def EXCLUDED_ATA_PREFIXES : List PyStr :=
  ["00", "05", "08", "09", "10", "11", "12", "13", "14", "15", "16", "17",
   "18", "19", "25", "33", "50", "51", "52", "53", "54", "55", "56", "57",
   "58", "59"].map String.toList

/-- Source: `src/analysis.py` lines 56-64 (`get_ata_2digit`): extract the 2-digit
major chapter.  `none` models a pandas-missing value (`pd.isna`). -/
def get_ata_2digit (ata : Option PyStr) : PyStr :=
  match ata with
  | none => []
  | some s =>
    let t := pyStrip s
    if t.contains '-' then t.takeWhile (· != '-')
    else if 2 ≤ t.length then t.take 2 else t

/-- Source: `src/analysis.py` lines 67-85 (`format_ata`): normalise a chapter code
to the hyphenated form. -/
def format_ata (ata : Option PyStr) : PyStr :=
  match ata with
  | none => []
  | some s =>
    let t := (pyStrip s).filter (· != ' ')
    if t.contains '-' then t
    else if t.length == 4 && t.all isDigitC then t.take 2 ++ '-' :: t.drop 2
    else if t.length == 2 then t ++ ('-' :: '0' :: '0' :: [])
    else t

/-- Source: `src/analysis.py` lines 208-230 (`classify_action`): keyword-based
classification of the free-text action, corrective keywords first. -/
def classify_action (action : Option PyStr) : String :=
  match action with
  | none => "UNKNOWN"
  | some s =>
    let l := lowerStr s
    if CORRECTIVE_KEYWORDS.any (fun kw => subIn kw l) then "CORRECTIVE_ACTION"
    else if RESET_KEYWORDS.any (fun kw => subIn kw l) then "RESET_ONLY"
    else "UNKNOWN"

/-- Source: `src/analysis.py` lines 233-266 (`should_exclude_ata`): chapter filter.
The sub-range checks are literal `startswith` tests on the formatted code. -/
def should_exclude_ata (ata : Option PyStr) : Bool :=
  match ata with
  | none => false
  | some s =>
    let t := pyStrip s
    let a2 := get_ata_2digit (some s)
    if EXCLUDED_ATA_PREFIXES.contains a2 then true
    else
      let f := format_ata (some t)
      if ("44-2".toList).isPrefixOf f then true
      else if ("23-3".toList).isPrefixOf f then true
      else if ("32-41".toList).isPrefixOf f then true
      else false

example : format_ata (some "7234".toList) = "72-34".toList := by decide
example : format_ata (some "72".toList) = "72-00".toList := by decide
example : should_exclude_ata (some "44-30".toList) = false := by decide
example : should_exclude_ata (some "32-411".toList) = true := by decide
example : classify_action (some "Replaced and reset".toList) = "CORRECTIVE_ACTION" := by decide
example : classify_action (some "BITE TEST ok".toList) = "RESET_ONLY" := by decide
example : classify_action (some [] ) = "UNKNOWN" := by decide

/-! ## Character-class facts used throughout -/

theorem ws_cases {c : Char} (h : isWsC c = true) :
    c = ' ' ∨ c = '\t' ∨ c = '\n' ∨ c = '\r' ∨ c = '\x0b' ∨ c = '\x0c' := by
  simpa [isWsC, or_assoc] using h

theorem digit_not_ws {c : Char} (h : isDigitC c = true) : isWsC c = false := by
  cases hws : isWsC c with
  | false => rfl
  | true =>
    rcases ws_cases hws with rfl | rfl | rfl | rfl | rfl | rfl <;>
      exact absurd h (by decide)

theorem word_not_ws {c : Char} (h : isWordC c = true) : isWsC c = false := by
  cases hws : isWsC c with
  | false => rfl
  | true =>
    rcases ws_cases hws with rfl | rfl | rfl | rfl | rfl | rfl <;>
      exact absurd h (by decide)

theorem digit_ne_dash {c : Char} (h : isDigitC c = true) : c ≠ '-' := by
  rintro rfl; exact absurd h (by decide)

theorem digit_ne_space {c : Char} (h : isDigitC c = true) : c ≠ ' ' := by
  rintro rfl; exact absurd h (by decide)

theorem dropWhile_eq_self_of_forall {p : Char → Bool} {s : PyStr}
    (h : ∀ x ∈ s, p x = false) : s.dropWhile p = s := by
  cases s with
  | nil => rfl
  | cons a t => simp [List.dropWhile_cons, h a (by simp)]

theorem strip_eq_self_of_forall {s : PyStr} (h : ∀ x ∈ s, isWsC x = false) :
    pyStrip s = s := by
  unfold pyStrip
  rw [dropWhile_eq_self_of_forall h,
    dropWhile_eq_self_of_forall (by intro x hx; exact h x (List.mem_reverse.mp hx)),
    List.reverse_reverse]

/-! ## Claim 3: the action classifier -/

theorem any_subIn_iff (kws : List PyStr) (l : PyStr) :
    kws.any (fun kw => subIn kw l) = true ↔ ∃ kw ∈ kws, kw <:+: l := by
  simp [List.any_eq_true, subIn_iff]

/-- C3: `classify_action` returns `CORRECTIVE_ACTION` exactly when some
corrective keyword occurs case-insensitively as a substring of the action
text (even when reset keywords occur as well), `RESET_ONLY` exactly when no
corrective keyword occurs but a reset keyword does, and `UNKNOWN` exactly
when no keyword matches; missing (`none`) and empty action text give
`UNKNOWN`. -/
theorem claim3_classify_action_policy (s : PyStr) :
    (classify_action (some s) = "CORRECTIVE_ACTION" ↔
      ∃ kw ∈ CORRECTIVE_KEYWORDS, kw <:+: lowerStr s) ∧
    (classify_action (some s) = "RESET_ONLY" ↔
      ((¬ ∃ kw ∈ CORRECTIVE_KEYWORDS, kw <:+: lowerStr s) ∧
        ∃ kw ∈ RESET_KEYWORDS, kw <:+: lowerStr s)) ∧
    (classify_action (some s) = "UNKNOWN" ↔
      ((¬ ∃ kw ∈ CORRECTIVE_KEYWORDS, kw <:+: lowerStr s) ∧
        ¬ ∃ kw ∈ RESET_KEYWORDS, kw <:+: lowerStr s)) ∧
    classify_action none = "UNKNOWN" ∧ classify_action (some []) = "UNKNOWN" := by
  have hC := any_subIn_iff CORRECTIVE_KEYWORDS (lowerStr s)
  have hR := any_subIn_iff RESET_KEYWORDS (lowerStr s)
  refine ⟨?_, ?_, ?_, rfl, by decide⟩ <;>
    · simp only [← hC, ← hR]
      cases hc : CORRECTIVE_KEYWORDS.any (fun kw => subIn kw (lowerStr s)) <;>
        cases hr : RESET_KEYWORDS.any (fun kw => subIn kw (lowerStr s)) <;>
          simp [classify_action, hc, hr]

/-! ## Claims 4 and 5: the chapter filter and the normalizers -/

theorem strip_ata5 {a b c d : Char} (ha : isDigitC a = true) (hb : isDigitC b = true)
    (hc : isDigitC c = true) (hd : isDigitC d = true) :
    pyStrip [a, b, '-', c, d] = [a, b, '-', c, d] := by
  apply strip_eq_self_of_forall
  intro x hx
  simp only [List.mem_cons, List.not_mem_nil, or_false] at hx
  rcases hx with rfl | rfl | rfl | rfl | rfl
  exacts [digit_not_ws ha, digit_not_ws hb, by decide, digit_not_ws hc, digit_not_ws hd]

theorem filter_space_ata5 {a b c d : Char} (ha : isDigitC a = true) (hb : isDigitC b = true)
    (hc : isDigitC c = true) (hd : isDigitC d = true) :
    List.filter (· != ' ') [a, b, '-', c, d] = [a, b, '-', c, d] := by
  apply List.filter_eq_self.mpr
  intro x hx
  simp only [List.mem_cons, List.not_mem_nil, or_false] at hx
  simp only [bne_iff_ne, ne_eq]
  rcases hx with rfl | rfl | rfl | rfl | rfl
  exacts [digit_ne_space ha, digit_ne_space hb, by decide, digit_ne_space hc, digit_ne_space hd]

theorem contains_dash_ata5 {a b c d : Char} :
    ([a, b, '-', c, d] : PyStr).contains '-' = true :=
  List.elem_iff.mpr (by simp)

theorem format_ata5 {a b c d : Char} (ha : isDigitC a = true) (hb : isDigitC b = true)
    (hc : isDigitC c = true) (hd : isDigitC d = true) :
    format_ata (some [a, b, '-', c, d]) = [a, b, '-', c, d] := by
  simp only [format_ata, strip_ata5 ha hb hc hd, filter_space_ata5 ha hb hc hd,
    contains_dash_ata5, if_true]

theorem get2_ata5 {a b c d : Char} (ha : isDigitC a = true) (hb : isDigitC b = true)
    (hc : isDigitC c = true) (hd : isDigitC d = true) :
    get_ata_2digit (some [a, b, '-', c, d]) = [a, b] := by
  have ha' : (a != '-') = true := by simp only [bne_iff_ne, ne_eq]; exact digit_ne_dash ha
  have hb' : (b != '-') = true := by simp only [bne_iff_ne, ne_eq]; exact digit_ne_dash hb
  simp only [get_ata_2digit, strip_ata5 ha hb hc hd, contains_dash_ata5, if_true,
    List.takeWhile_cons, ha', hb']
  simp

theorem strip_digits {s : PyStr} (h : ∀ x ∈ s, isDigitC x = true) : pyStrip s = s :=
  strip_eq_self_of_forall (fun x hx => digit_not_ws (h x hx))

theorem contains_dash_digits {s : PyStr} (h : ∀ x ∈ s, isDigitC x = true) :
    s.contains '-' = false := by
  cases hcb : s.contains '-' with
  | false => rfl
  | true => exact absurd (h '-' (List.elem_iff.mp hcb)) (by decide)

theorem filter_space_digits {s : PyStr} (h : ∀ x ∈ s, isDigitC x = true) :
    List.filter (· != ' ') s = s := by
  apply List.filter_eq_self.mpr
  intro x hx
  simp only [bne_iff_ne, ne_eq]
  exact digit_ne_space (h x hx)

theorem format_ata4 {a b c d : Char} (ha : isDigitC a = true) (hb : isDigitC b = true)
    (hc : isDigitC c = true) (hd : isDigitC d = true) :
    format_ata (some [a, b, c, d]) = [a, b, '-', c, d] := by
  have hall : ∀ x ∈ ([a, b, c, d] : PyStr), isDigitC x = true := by
    intro x hx
    simp only [List.mem_cons, List.not_mem_nil, or_false] at hx
    rcases hx with rfl | rfl | rfl | rfl
    exacts [ha, hb, hc, hd]
  simp only [format_ata, strip_digits hall, filter_space_digits hall,
    contains_dash_digits hall, if_false, Bool.false_eq_true]
  have : (([a, b, c, d] : PyStr).length == 4 && ([a, b, c, d] : PyStr).all isDigitC) = true := by
    simp only [Bool.and_eq_true, List.all_eq_true]
    exact ⟨by rfl, hall⟩
  simp only [this, if_true]
  rfl

theorem format_ata2 {a b : Char} (ha : isDigitC a = true) (hb : isDigitC b = true) :
    format_ata (some [a, b]) = [a, b, '-', '0', '0'] := by
  have hall : ∀ x ∈ ([a, b] : PyStr), isDigitC x = true := by
    intro x hx
    simp only [List.mem_cons, List.not_mem_nil, or_false] at hx
    rcases hx with rfl | rfl
    exacts [ha, hb]
  simp only [format_ata, strip_digits hall, filter_space_digits hall,
    contains_dash_digits hall, if_false, Bool.false_eq_true]
  rfl

theorem get2_ata2 {a b : Char} (ha : isDigitC a = true) (hb : isDigitC b = true) :
    get_ata_2digit (some [a, b]) = [a, b] := by
  have hall : ∀ x ∈ ([a, b] : PyStr), isDigitC x = true := by
    intro x hx
    simp only [List.mem_cons, List.not_mem_nil, or_false] at hx
    rcases hx with rfl | rfl
    exacts [ha, hb]
  simp only [get_ata_2digit, strip_digits hall, contains_dash_digits hall, if_false,
    Bool.false_eq_true]
  rfl

theorem get2_ata4 {a b c d : Char} (ha : isDigitC a = true) (hb : isDigitC b = true)
    (hc : isDigitC c = true) (hd : isDigitC d = true) :
    get_ata_2digit (some [a, b, c, d]) = [a, b] := by
  have hall : ∀ x ∈ ([a, b, c, d] : PyStr), isDigitC x = true := by
    intro x hx
    simp only [List.mem_cons, List.not_mem_nil, or_false] at hx
    rcases hx with rfl | rfl | rfl | rfl
    exacts [ha, hb, hc, hd]
  simp only [get_ata_2digit, strip_digits hall, contains_dash_digits hall, if_false,
    Bool.false_eq_true]
  rfl

/-- The band 44-20..44-29 as an explicit list of codes. -/
def band44 : List PyStr :=
  ["44-20", "44-21", "44-22", "44-23", "44-24", "44-25", "44-26", "44-27",
   "44-28", "44-29"].map String.toList

/-- The band 23-30..23-39 as an explicit list of codes. -/
def band23 : List PyStr :=
  ["23-30", "23-31", "23-32", "23-33", "23-34", "23-35", "23-36", "23-37",
   "23-38", "23-39"].map String.toList

/-- C4 as stated is false: the malformed code `32-411` has major chapter
`32`, which is not in the exclusion set, it lies in neither band and it is
not exactly `32-41`, yet `should_exclude_ata` excludes it, because the code
tests `startswith('32-41')` on the formatted value (and likewise malformed
codes starting with `44-2` or `23-3` are excluded, contradicting both the
"exactly 32-41" reading and the malformed-pass-through clause). -/
theorem claim4_counterexample :
    should_exclude_ata (some "32-411".toList) = true ∧
    EXCLUDED_ATA_PREFIXES.contains (get_ata_2digit (some "32-411".toList)) = false ∧
    "32-411".toList ∉ band44 ++ band23 ++ ["32-41".toList] := by
  refine ⟨by decide, by decide, by decide⟩

theorem isPrefixOf_44 {a b c d : Char} :
    (("44-2".toList).isPrefixOf [a, b, '-', c, d] = true) ↔ (a = '4' ∧ b = '4' ∧ c = '2') := by
  have e : "44-2".toList = ['4', '4', '-', '2'] := by decide
  rw [e]
  simp only [List.isPrefixOf, Bool.and_eq_true, beq_iff_eq]
  constructor
  · rintro ⟨rfl, rfl, -, rfl, -⟩; exact ⟨rfl, rfl, rfl⟩
  · rintro ⟨rfl, rfl, rfl⟩; simp

theorem isPrefixOf_23 {a b c d : Char} :
    (("23-3".toList).isPrefixOf [a, b, '-', c, d] = true) ↔ (a = '2' ∧ b = '3' ∧ c = '3') := by
  have e : "23-3".toList = ['2', '3', '-', '3'] := by decide
  rw [e]
  simp only [List.isPrefixOf, Bool.and_eq_true, beq_iff_eq]
  constructor
  · rintro ⟨rfl, rfl, -, rfl, -⟩; exact ⟨rfl, rfl, rfl⟩
  · rintro ⟨rfl, rfl, rfl⟩; simp

theorem isPrefixOf_3241 {a b c d : Char} :
    (("32-41".toList).isPrefixOf [a, b, '-', c, d] = true) ↔
      (a = '3' ∧ b = '2' ∧ c = '4' ∧ d = '1') := by
  have e : "32-41".toList = ['3', '2', '-', '4', '1'] := by decide
  rw [e]
  simp only [List.isPrefixOf, Bool.and_eq_true, beq_iff_eq]
  constructor
  · rintro ⟨rfl, rfl, -, rfl, rfl, -⟩; exact ⟨rfl, rfl, rfl, rfl⟩
  · rintro ⟨rfl, rfl, rfl, rfl⟩; simp

/-- C4 amended: a code is excluded exactly when its 2-digit major chapter is
in the fixed exclusion set (which contains 05), or the formatted code starts
with `44-2` (on well-formed codes: the band 44-20..44-29), starts with
`23-3` (the band 23-30..23-39), or starts with `32-41` (so not only the
exact code `32-41` but also longer malformed codes such as `32-411`);
`44-30` is not excluded, a missing code is not excluded, and no input
errors. -/
theorem claim4_should_exclude_amended (a b c d : Char)
    (ha : isDigitC a = true) (hb : isDigitC b = true)
    (hc : isDigitC c = true) (hd : isDigitC d = true) :
    (should_exclude_ata (some [a, b, '-', c, d]) = true ↔
      ([a, b] ∈ EXCLUDED_ATA_PREFIXES ∨ (a = '4' ∧ b = '4' ∧ c = '2') ∨
        (a = '2' ∧ b = '3' ∧ c = '3') ∨ (a = '3' ∧ b = '2' ∧ c = '4' ∧ d = '1'))) ∧
    should_exclude_ata (some "44-30".toList) = false ∧
    should_exclude_ata (some "05-10".toList) = true ∧
    should_exclude_ata (some "32-411".toList) = true ∧
    should_exclude_ata none = false := by
  refine ⟨?_, by decide, by decide, by decide, rfl⟩
  have key : should_exclude_ata (some [a, b, '-', c, d]) =
      (EXCLUDED_ATA_PREFIXES.contains [a, b] ||
        (("44-2".toList).isPrefixOf [a, b, '-', c, d] ||
          (("23-3".toList).isPrefixOf [a, b, '-', c, d] ||
            ("32-41".toList).isPrefixOf [a, b, '-', c, d]))) := by
    simp only [should_exclude_ata, strip_ata5 ha hb hc hd, get2_ata5 ha hb hc hd,
      format_ata5 ha hb hc hd]
    cases EXCLUDED_ATA_PREFIXES.contains [a, b] <;>
      cases ("44-2".toList).isPrefixOf [a, b, '-', c, d] <;>
        cases ("23-3".toList).isPrefixOf [a, b, '-', c, d] <;>
          cases ("32-41".toList).isPrefixOf [a, b, '-', c, d] <;> rfl
  rw [key]
  simp only [Bool.or_eq_true, List.elem_iff, isPrefixOf_44, isPrefixOf_23, isPrefixOf_3241]

/-- Witness for the amended C4: `44-25` falls in the 44-2x band and is
excluded; the hypotheses of the amended claim hold at `'4','4','2','5'`. -/
theorem claim4_witness : should_exclude_ata (some ['4', '4', '-', '2', '5']) = true := by
  have h := (claim4_should_exclude_amended '4' '4' '2' '5'
    (by decide) (by decide) (by decide) (by decide)).1
  exact h.mpr (Or.inr (Or.inl ⟨rfl, rfl, rfl⟩))

/-- The three accepted chapter-code encodings of the specification:
hyphenated `xx-xx`, plain `xxxx`, and bare major `xx`. -/
def isAcceptedAta (s : PyStr) : Bool :=
  match s with
  | [a, b, h, c, d] => isDigitC a && isDigitC b && h == '-' && isDigitC c && isDigitC d
  | [a, b, c, d] => isDigitC a && isDigitC b && isDigitC c && isDigitC d
  | [a, b] => isDigitC a && isDigitC b
  | _ => false

/-- C5: on every accepted encoding both `format_ata` and `get_ata_2digit`
are idempotent, and `format_ata` maps `7234` to `72-34`, `72` to `72-00`
and leaves `72-34` unchanged. -/
theorem claim5_normalizers_idempotent (s : PyStr) (hs : isAcceptedAta s = true) :
    format_ata (some (format_ata (some s))) = format_ata (some s) ∧
    get_ata_2digit (some (get_ata_2digit (some s))) = get_ata_2digit (some s) ∧
    format_ata (some "7234".toList) = "72-34".toList ∧
    format_ata (some "72".toList) = "72-00".toList ∧
    format_ata (some "72-34".toList) = "72-34".toList := by
  refine ⟨?_, ?_, by decide, by decide, by decide⟩ <;>
  · unfold isAcceptedAta at hs
    split at hs
    · rename_i a b h c d
      simp only [Bool.and_eq_true, beq_iff_eq] at hs
      obtain ⟨⟨⟨⟨ha, hb⟩, rfl⟩, hc⟩, hd⟩ := hs
      simp only [format_ata5 ha hb hc hd, get2_ata5 ha hb hc hd, get2_ata2 ha hb]
    · rename_i a b c d
      simp only [Bool.and_eq_true] at hs
      obtain ⟨⟨⟨ha, hb⟩, hc⟩, hd⟩ := hs
      simp only [format_ata4 ha hb hc hd, format_ata5 ha hb hc hd,
        get2_ata4 ha hb hc hd, get2_ata2 ha hb]
    · rename_i a b
      simp only [Bool.and_eq_true] at hs
      obtain ⟨ha, hb⟩ := hs
      have h0 : isDigitC '0' = true := by decide
      simp only [format_ata2 ha hb, format_ata5 ha hb h0 h0, get2_ata2 ha hb]
    · exact absurd hs (by simp)

/-- Witness for C5 at the accepted encoding `7234`. -/
theorem claim5_witness :
    format_ata (some (format_ata (some "7234".toList))) = format_ata (some "7234".toList) ∧
    get_ata_2digit (some (get_ata_2digit (some "7234".toList))) =
      get_ata_2digit (some "7234".toList) ∧
    format_ata (some "7234".toList) = "72-34".toList ∧
    format_ata (some "72".toList) = "72-00".toList ∧
    format_ata (some "72-34".toList) = "72-34".toList :=
  claim5_normalizers_idempotent ("7234".toList) (by decide)

/-! ## Claims 2 and 10: the chapter corrector (`extract_ata_from_text`)

The three citation regexes of `src/analysis.py` lines 178-182 are embedded
as deterministic scanners.  At every junction of the patterns the adjacent
character classes are disjoint (digits / whitespace / a literal), so greedy
committed matching coincides with regex backtracking semantics. -/

/-- Match a literal string at the head of the input; return the rest. -/
def litP (w : PyStr) (s : PyStr) : Option PyStr :=
  if w.isPrefixOf s then some (s.drop w.length) else none

/-- Regex `\s*`: greedily skip whitespace. -/
def wsStar (s : PyStr) : PyStr := s.dropWhile isWsC

/-- Regex `\s+`: at least one whitespace character, greedily. -/
def wsPlus (s : PyStr) : Option PyStr :=
  match s with
  | [] => none
  | c :: t => if isWsC c then some ((c :: t).dropWhile isWsC) else none

/-- Regex group `(\d{2}[-]?\d{2})` of `src/analysis.py` line 171: two
digits, an optional hyphen, two more digits; returns (matched text, rest).
If a hyphen follows the first two digits, two digits must follow it —
exactly the regex behaviour, since after backtracking over the optional
hyphen the mandatory `\d` would have to match the hyphen itself. -/
def grpAta (s : PyStr) : Option (PyStr × PyStr) :=
  match s with
  | c1 :: c2 :: rest =>
    if isDigitC c1 && isDigitC c2 then
      match rest with
      | '-' :: d3 :: d4 :: r =>
        if isDigitC d3 && isDigitC d4 then some ([c1, c2, '-', d3, d4], r) else none
      | d3 :: d4 :: r =>
        if isDigitC d3 && isDigitC d4 then some ([c1, c2, d3, d4], r) else none
      | _ => none
    else none
  | _ => none

/-- The pattern `KEYWORD\s*:\s*(\d{2}[-]?\d{2})` (line 179). -/
def tryColon (kw : PyStr) (s : PyStr) : Option (PyStr × PyStr) := do
  let s1 ← litP kw s
  let s2 ← litP [':'] (wsStar s1)
  grpAta (wsStar s2)

/-- The pattern `KEYWORD\s+TASK\s+(\d{2}[-]?\d{2})` (line 180). -/
def tryTask (kw : PyStr) (s : PyStr) : Option (PyStr × PyStr) := do
  let s1 ← litP kw s
  let s2 ← wsPlus s1
  let s3 ← litP ("TASK".toList) s2
  let s4 ← wsPlus s3
  grpAta s4

/-- The pattern `KEYWORD\s+(\d{2}[-]?\d{2})` (line 181). -/
def tryPlain (kw : PyStr) (s : PyStr) : Option (PyStr × PyStr) := do
  let s1 ← litP kw s
  let s2 ← wsPlus s1
  grpAta s2

/-- Python `re.findall`: scan left to right; at each position try a full match; on
success record the captured group and continue after the match (matches are
non-overlapping), otherwise advance one character.  The fuel bounds the
number of scanning steps; every step consumes at least one character, so
`length + 1` is always enough. -/
def findallAux (tm : PyStr → Option (PyStr × PyStr)) : Nat → PyStr → List PyStr
  | 0, _ => []
  | _ + 1, [] => []
  | fuel + 1, c :: t =>
    match tm (c :: t) with
    | some (g, rest) => g :: findallAux tm fuel rest
    | none => findallAux tm fuel t

def findall (tm : PyStr → Option (PyStr × PyStr)) (s : PyStr) : List PyStr :=
  findallAux tm (s.length + 1) s

/-- Source: `src/analysis.py` lines 187-193: clean one regex match — drop spaces
and hyphens, and when at least four digits remain reformat the first four
as `xx-xx`. -/
def fmtMatch (m : PyStr) : Option PyStr :=
  let code := (m.filter (· != ' ')).filter (· != '-')
  if 4 ≤ code.length && code.all isDigitC then
    some (code.take 2 ++ '-' :: (code.drop 2).take 2)
  else none

/-- The three surface patterns tried for one keyword, in source order
(`src/analysis.py` lines 178-182). -/
def patternShapes (kw : PyStr) : List (PyStr → Option (PyStr × PyStr)) :=
  [tryColon kw, tryTask kw, tryPlain kw]

/-- All formatted matches of one priority tier, in keyword, then pattern,
then match order (`src/analysis.py` lines 175-193). -/
def collectTier (kws : List PyStr) (text : PyStr) : List PyStr :=
  kws.flatMap (fun kw =>
    (patternShapes kw).flatMap (fun tm => (findall tm text).filterMap fmtMatch))

/-- Source: `src/analysis.py` lines 162-166: citation keywords by priority tier. -/
def HIGH_KEYWORDS : List PyStr := ["TSM", "AFI", "FIM"].map String.toList

def MEDIUM_KEYWORDS : List PyStr := ["IPC", "IPD"].map String.toList

def LOW_KEYWORDS : List PyStr := ["AMM"].map String.toList

/-- Source: `src/analysis.py` lines 138-204 (`extract_ata_from_text`): the combined
search text is empty unless both arguments are non-missing (line 157); the
search runs on the upper-cased combination, and the first collected match
of the highest non-empty tier wins, else the record's own normalised
chapter. -/
def extract_ata_from_text (description action original_ata : Option PyStr) : PyStr :=
  let combined : PyStr :=
    match description, action with
    | some d, some a => d ++ ' ' :: a
    | _, _ => []
  let up := upperStr combined
  match collectTier HIGH_KEYWORDS up with
  | f :: _ => f
  | [] =>
    match collectTier MEDIUM_KEYWORDS up with
    | f :: _ => f
    | [] =>
      match collectTier LOW_KEYWORDS up with
      | f :: _ => f
      | [] => format_ata original_ata

/-- The chapter corrector as worded by the specification: return the first
citation found in the highest non-empty tier — keywords in iteration order,
for each keyword the three surface patterns in order, and for each pattern
the first regex match in the text — falling back to the record's own
normalised chapter code. -/
def extract_ata_spec (description action original_ata : Option PyStr) : PyStr :=
  let combined : PyStr :=
    match description, action with
    | some d, some a => d ++ ' ' :: a
    | _, _ => []
  let up := upperStr combined
  match HIGH_KEYWORDS.findSome? (fun kw =>
      (patternShapes kw).findSome? (fun tm => ((findall tm up).filterMap fmtMatch).head?)) with
  | some f => f
  | none =>
    match MEDIUM_KEYWORDS.findSome? (fun kw =>
        (patternShapes kw).findSome? (fun tm => ((findall tm up).filterMap fmtMatch).head?)) with
    | some f => f
    | none =>
      match LOW_KEYWORDS.findSome? (fun kw =>
          (patternShapes kw).findSome? (fun tm => ((findall tm up).filterMap fmtMatch).head?)) with
      | some f => f
      | none => format_ata original_ata

theorem head?_flatMap {α β : Type} (l : List α) (f : α → List β) :
    (l.flatMap f).head? = l.findSome? (fun x => (f x).head?) := by
  induction l with
  | nil => rfl
  | cons a t ih =>
    rw [List.flatMap_cons, List.head?_append, ih]
    cases hfa : (f a).head? <;> simp [List.findSome?_cons, hfa, Option.or]

theorem collectTier_head (kws : List PyStr) (text : PyStr) :
    (collectTier kws text).head? = kws.findSome? (fun kw =>
      (patternShapes kw).findSome? (fun tm => ((findall tm text).filterMap fmtMatch).head?)) := by
  rw [collectTier, head?_flatMap]
  congr 1
  funext kw
  rw [head?_flatMap]

theorem extract_selection_core (up fb : PyStr) :
    (match collectTier HIGH_KEYWORDS up with
     | f :: _ => f
     | [] =>
       match collectTier MEDIUM_KEYWORDS up with
       | f :: _ => f
       | [] =>
         match collectTier LOW_KEYWORDS up with
         | f :: _ => f
         | [] => fb) =
    (match HIGH_KEYWORDS.findSome? (fun kw =>
        (patternShapes kw).findSome? (fun tm => ((findall tm up).filterMap fmtMatch).head?)) with
     | some f => f
     | none =>
       match MEDIUM_KEYWORDS.findSome? (fun kw =>
           (patternShapes kw).findSome? (fun tm => ((findall tm up).filterMap fmtMatch).head?)) with
       | some f => f
       | none =>
         match LOW_KEYWORDS.findSome? (fun kw =>
             (patternShapes kw).findSome? (fun tm => ((findall tm up).filterMap fmtMatch).head?)) with
         | some f => f
         | none => fb) := by
  rw [← collectTier_head, ← collectTier_head, ← collectTier_head]
  cases collectTier HIGH_KEYWORDS up <;>
    cases collectTier MEDIUM_KEYWORDS up <;>
      cases collectTier LOW_KEYWORDS up <;> rfl

/-- C2: the chapter corrector returns the first citation of the highest
non-empty priority tier (high TSM/AFI/FIM, medium IPC/IPD, low AMM; for
each keyword the patterns `KEYWORD: CODE`, `KEYWORD TASK CODE`,
`KEYWORD CODE` in that order; matches reformatted to `xx-xx`), falling
back to the record's own normalised chapter; and a text containing both
`TSM: 72-32` and `AMM 21-50` resolves to `72-32`. -/
theorem claim2_extract_ata_priority (description action original_ata : Option PyStr) :
    extract_ata_from_text description action original_ata =
      extract_ata_spec description action original_ata ∧
    extract_ata_from_text (some ("FAULT PER TSM: 72-32".toList))
      (some ("REF AMM 21-50 DONE".toList)) (some "2150".toList) = "72-32".toList := by
  constructor
  · unfold extract_ata_from_text extract_ata_spec
    dsimp only
    exact extract_selection_core _ _
  · decide

/-- C10: if either text argument of `extract_ata_from_text` is missing, the
combined search text is empty (line 157), so no citation can be found —
a citation in the non-missing field is ignored — and the record's own
normalised chapter code is returned. -/
theorem claim10_missing_text_fallback (description action original_ata : Option PyStr)
    (h : description = none ∨ action = none) :
    extract_ata_from_text description action original_ata = format_ata original_ata := by
  rcases h with rfl | rfl
  · rfl
  · cases description <;> rfl

/-- Witness for C10: with a missing description, the citation `TSM: 72-32`
sitting in the action text is ignored and the original chapter `2150` is
normalised and returned. -/
theorem claim10_witness :
    extract_ata_from_text none (some "TSM: 72-32".toList) (some "2150".toList) =
      format_ata (some "2150".toList) ∧
    format_ata (some "2150".toList) = "21-50".toList :=
  ⟨claim10_missing_text_fallback none (some "TSM: 72-32".toList) (some "2150".toList)
    (Or.inl rfl), by decide⟩

/-! ## Claim 8: the text sanitizer (`clean_amos_metadata`)

The four metadata regexes of `src/analysis.py` lines 111-123 are sequences
of character-class repetitions (`\d+`, `\s+`, `\w+`) and literals.  They
are embedded as a committed (greedy, non-backtracking) scanner `pMatch`
over token lists, and the scanner is proved equivalent to the declarative
decomposition semantics `PMatch` of the regex: at every junction where a
repetition meets the next token the character classes are disjoint, so the
greedy extent of each repetition is forced. -/

/-- One token of an anchored prefix regex: a character-class repetition
(one or more) or a literal word. -/
inductive Tok : Type where
  | cls (p : Char → Bool) : Tok
  | lit (w : PyStr) : Tok

/-- Greedy committed scanner for a token list, anchored at the start of the
input (the semantics of `re.match`); returns the rest after the match. -/
def pMatch : List Tok → PyStr → Option PyStr
  | [], s => some s
  | Tok.cls p :: ts, s =>
    match s with
    | [] => none
    | c :: t => if p c then pMatch ts ((c :: t).dropWhile p) else none
  | Tok.lit w :: ts, s =>
    if w.isPrefixOf s then pMatch ts (s.drop w.length) else none

/-- Declarative matching semantics of a token list: some decomposition of
the input into non-empty class runs and the literals, with a remainder. -/
inductive PMatch : List Tok → PyStr → PyStr → Prop where
  | nil (s : PyStr) : PMatch [] s s
  | cls (p : Char → Bool) (ts : List Tok) (w s r : PyStr) :
      w ≠ [] → (∀ c ∈ w, p c = true) → PMatch ts s r →
      PMatch (Tok.cls p :: ts) (w ++ s) r
  | lit (w : PyStr) (ts : List Tok) (s r : PyStr) :
      PMatch ts s r → PMatch (Tok.lit w :: ts) (w ++ s) r

/-- Junction conditions making the greedy scanner complete: each class
repetition is followed by a token whose first character cannot belong to
the class, and literals are non-empty. -/
def SepOK : List Tok → Prop
  | [] => True
  | Tok.lit w :: ts => w ≠ [] ∧ SepOK ts
  | Tok.cls p :: ts =>
    (match ts with
     | [] => True
     | Tok.cls q :: _ => ∀ c, p c = true → q c = false
     | Tok.lit w :: _ => ∃ c cs, w = c :: cs ∧ p c = false) ∧ SepOK ts

theorem dropWhile_append_of_all {p : Char → Bool} {w s : PyStr}
    (h : ∀ c ∈ w, p c = true) : (w ++ s).dropWhile p = s.dropWhile p := by
  induction w with
  | nil => rfl
  | cons c t ih =>
    simp only [List.cons_append, List.dropWhile_cons, h c (by simp)]
    exact ih (fun x hx => h x (by simp [hx]))

/-- Soundness of the greedy scanner: a scanner match yields a declarative
decomposition. -/
theorem pMatch_sound {toks : List Tok} {s r : PyStr}
    (h : pMatch toks s = some r) : PMatch toks s r := by
  induction toks generalizing s with
  | nil =>
    simp only [pMatch, Option.some_inj] at h
    exact h ▸ PMatch.nil s
  | cons tk ts ih =>
    cases tk with
    | cls p =>
      cases s with
      | nil => exact absurd h (by simp [pMatch])
      | cons c t =>
        simp only [pMatch] at h
        by_cases hpc : p c = true
        · rw [if_pos hpc] at h
          have hdecomp := (List.takeWhile_append_dropWhile (p := p) (l := c :: t)).symm
          have hne : (c :: t).takeWhile p ≠ [] := by
            simp [List.takeWhile_cons, hpc]
          have hall : ∀ x ∈ (c :: t).takeWhile p, p x = true :=
            fun x hx => List.mem_takeWhile_imp hx
          rw [hdecomp]
          exact PMatch.cls p ts _ _ r hne hall (ih h)
        · rw [if_neg hpc] at h
          exact absurd h (by simp)
    | lit w =>
      simp only [pMatch] at h
      by_cases hw : w.isPrefixOf s = true
      · rw [if_pos hw] at h
        obtain ⟨t, rfl⟩ := List.isPrefixOf_iff_prefix.mp hw
        rw [List.drop_left] at h
        exact PMatch.lit w ts t r (ih h)
      · rw [if_neg hw] at h
        exact absurd h (by simp)

/-- Completeness of the greedy scanner under the junction conditions: if
some declarative decomposition exists, the scanner succeeds. -/
theorem pMatch_complete {toks : List Tok} {s r : PyStr}
    (hpm : PMatch toks s r) : SepOK toks → (pMatch toks s).isSome = true := by
  induction hpm with
  | nil s => intro _; simp [pMatch]
  | cls p ts w s r hw hall hrec ih =>
    intro hsep
    simp only [SepOK] at hsep
    obtain ⟨hbound, hsep_ts⟩ := hsep
    obtain ⟨c, w', rfl⟩ : ∃ c w', w = c :: w' := by
      cases w with
      | nil => exact absurd rfl hw
      | cons c w' => exact ⟨c, w', rfl⟩
    have hpc : p c = true := hall c (by simp)
    have hall' : ∀ x ∈ w', p x = true := fun x hx => hall x (by simp [hx])
    have hstep : pMatch (Tok.cls p :: ts) ((c :: w') ++ s) =
        pMatch ts ((w' ++ s).dropWhile p) := by
      simp [pMatch, hpc]
    rw [hstep, dropWhile_append_of_all hall']
    have hsdrop : s.dropWhile p = s ∨ ts = [] := by
      cases hrec with
      | nil s => exact Or.inr rfl
      | cls q ts' w2 s2 r2 hw2 hall2 _ =>
        obtain ⟨c2, w2', rfl⟩ : ∃ c2 w2', w2 = c2 :: w2' := by
          cases w2 with
          | nil => exact absurd rfl hw2
          | cons c2 w2' => exact ⟨c2, w2', rfl⟩
        have hq : q c2 = true := hall2 c2 (by simp)
        have hb : ∀ x, p x = true → q x = false := hbound
        have hpc2 : p c2 = false := by
          cases hpcc : p c2 with
          | false => rfl
          | true => exact absurd hq (by simp [hb c2 hpcc])
        exact Or.inl (by simp [List.dropWhile_cons, hpc2])
      | lit w2 ts' s2 r2 _ =>
        have hb : ∃ c2 cs2, w2 = c2 :: cs2 ∧ p c2 = false := hbound
        obtain ⟨c2, cs2, rfl, hpc2⟩ := hb
        exact Or.inl (by simp [List.dropWhile_cons, hpc2])
    rcases hsdrop with hsdrop | rfl
    · rw [hsdrop]; exact ih hsep_ts
    · simp [pMatch]
  | lit w ts s r hrec ih =>
    intro hsep
    obtain ⟨-, hsep_ts⟩ : w ≠ [] ∧ SepOK ts := hsep
    have hpre : w.isPrefixOf (w ++ s) = true :=
      List.isPrefixOf_iff_prefix.mpr (List.prefix_append w s)
    simp only [pMatch, hpre, if_true, List.drop_left]
    exact ih hsep_ts

/-- The scanner decides existence of a declarative decomposition. -/
theorem pMatch_isSome_iff {toks : List Tok} (hsep : SepOK toks) (s : PyStr) :
    (pMatch toks s).isSome = true ↔ ∃ r, PMatch toks s r := by
  constructor
  · intro h
    obtain ⟨r, hr⟩ := Option.isSome_iff_exists.mp h
    exact ⟨r, pMatch_sound hr⟩
  · rintro ⟨r, hr⟩
    exact pMatch_complete hr hsep

/-- Regex `^\d+\s+WORKSTEP\s+ADDED\s+BY\s+\w+\s+ON\s+` (line 111). -/
def metaPat1 : List Tok :=
  [Tok.cls isDigitC, Tok.cls isWsC, Tok.lit ("WORKSTEP".toList), Tok.cls isWsC,
   Tok.lit ("ADDED".toList), Tok.cls isWsC, Tok.lit ("BY".toList), Tok.cls isWsC,
   Tok.cls isWordC, Tok.cls isWsC, Tok.lit ("ON".toList), Tok.cls isWsC]

/-- Regex `^ACTION\s+PERFORMED\s+BY\s+\w+\s+ON\s+` (line 115). -/
def metaPat2 : List Tok :=
  [Tok.lit ("ACTION".toList), Tok.cls isWsC, Tok.lit ("PERFORMED".toList), Tok.cls isWsC,
   Tok.lit ("BY".toList), Tok.cls isWsC, Tok.cls isWordC, Tok.cls isWsC,
   Tok.lit ("ON".toList), Tok.cls isWsC]

/-- Regex `^DESCRIPTION\s+SIGN\s+\w+` (line 119). -/
def metaPat3 : List Tok :=
  [Tok.lit ("DESCRIPTION".toList), Tok.cls isWsC, Tok.lit ("SIGN".toList),
   Tok.cls isWsC, Tok.cls isWordC]

/-- Regex `^PERFORMED\s+SIGN\s+\w+` (line 123). -/
def metaPat4 : List Tok :=
  [Tok.lit ("PERFORMED".toList), Tok.cls isWsC, Tok.lit ("SIGN".toList),
   Tok.cls isWsC, Tok.cls isWordC]

theorem ws_not_word {c : Char} (h : isWsC c = true) : isWordC c = false := by
  rcases ws_cases h with rfl | rfl | rfl | rfl | rfl | rfl <;> decide

theorem sepOK_metaPat1 : SepOK metaPat1 := by
  unfold metaPat1
  simp only [SepOK]
  exact ⟨fun c h => digit_not_ws h,
    ⟨'W', "ORKSTEP".toList, by decide, by decide⟩, by decide,
    ⟨'A', "DDED".toList, by decide, by decide⟩, by decide,
    ⟨'B', "Y".toList, by decide, by decide⟩, by decide,
    fun c h => ws_not_word h,
    fun c h => word_not_ws h,
    ⟨'O', "N".toList, by decide, by decide⟩, by decide,
    trivial, trivial⟩

theorem sepOK_metaPat2 : SepOK metaPat2 := by
  unfold metaPat2
  simp only [SepOK]
  exact ⟨by decide, ⟨'P', "ERFORMED".toList, by decide, by decide⟩, by decide,
    ⟨'B', "Y".toList, by decide, by decide⟩, by decide,
    fun c h => ws_not_word h,
    fun c h => word_not_ws h,
    ⟨'O', "N".toList, by decide, by decide⟩, by decide,
    trivial, trivial⟩

theorem sepOK_metaPat3 : SepOK metaPat3 := by
  unfold metaPat3
  simp only [SepOK]
  exact ⟨by decide, ⟨'S', "IGN".toList, by decide, by decide⟩, by decide,
    fun c h => ws_not_word h, trivial, trivial⟩

theorem sepOK_metaPat4 : SepOK metaPat4 := by
  unfold metaPat4
  simp only [SepOK]
  exact ⟨by decide, ⟨'S', "IGN".toList, by decide, by decide⟩, by decide,
    fun c h => ws_not_word h, trivial, trivial⟩

/-- Source: `src/analysis.py` lines 106-127: a line is dropped exactly when its
stripped upper-cased form matches one of the four metadata regexes at the
start of the line. -/
def isMetaLine (line : PyStr) : Bool :=
  let u := upperStr (pyStrip line)
  (pMatch metaPat1 u).isSome || (pMatch metaPat2 u).isSome ||
    (pMatch metaPat3 u).isSome || (pMatch metaPat4 u).isSome

/-- Python `text.split('\n')`. -/
def pySplitNl : PyStr → List PyStr
  | [] => [[]]
  | c :: t =>
    match pySplitNl t with
    | s :: ss => if c = '\n' then [] :: s :: ss else (c :: s) :: ss
    | [] => [[c]]

/-- Starting in the whitespace run that follows a newline, return the text
after the last newline of that maximal whitespace run, or `none` when the
run contains no newline.  This is the backtracked greedy extent of
`\s*\n+` in the regex `\n\s*\n+`. -/
def afterLastNl : PyStr → Option PyStr
  | [] => none
  | c :: t =>
    if isWsC c then
      match afterLastNl t with
      | some r => some r
      | none => if c = '\n' then some t else none
    else none

/-- Python `re.sub(r'\n\s*\n+', '\n', s)` (`src/analysis.py` line 133): scan left
to right; every match — a newline plus the following whitespace up to the
last newline of the run, provided there is at least one further newline —
is replaced by a single newline and scanning resumes after the match.  The
fuel decreases by one at every step while at least one character is
consumed, so `length` fuel always suffices. -/
def collapseNlAux : Nat → PyStr → PyStr
  | 0, s => s
  | _ + 1, [] => []
  | fuel + 1, c :: t =>
    if c = '\n' then
      match afterLastNl t with
      | some r => '\n' :: collapseNlAux fuel r
      | none => c :: collapseNlAux fuel t
    else c :: collapseNlAux fuel t

def collapseNl (s : PyStr) : PyStr := collapseNlAux s.length s

/-- Source: `src/analysis.py` lines 88-135 (`clean_amos_metadata`): strip, split
into lines, drop metadata lines, re-join, strip, collapse newline runs.
Missing (`pd.isna`) and empty text give the empty string. -/
def clean_amos_metadata (text : Option PyStr) : PyStr :=
  match text with
  | none => []
  | some t =>
    if t = [] then []
    else
      let lines := pySplitNl (pyStrip t)
      let kept := lines.filter (fun l => !(isMetaLine l))
      collapseNl (pyStrip (List.intercalate ['\n'] kept))

example :
    clean_amos_metadata (some ("1 WORKSTEP ADDED BY SMITH ON 01/02/2024, 10:00\nFAULT FOUND".toList)) =
      "FAULT FOUND".toList := by decide

example : clean_amos_metadata (some "A\n\n\nB".toList) = "A\nB".toList := by decide

example :
    clean_amos_metadata (some ("SEE ACTION PERFORMED BY X ON GROUND".toList)) =
      "SEE ACTION PERFORMED BY X ON GROUND".toList := by decide

/-- C8 fails as stated: a line beginning (at line start, case-insensitively)
with `workstep added by <user> on <timestamp>` is not removed, because the
source regex `^\d+\s+WORKSTEP\s+ADDED\s+BY\s+\w+\s+ON\s+` additionally
requires a leading workstep number. -/
theorem claim8_counterexample :
    clean_amos_metadata
        (some ("WORKSTEP ADDED BY JOHN ON 01/02/2024, 10:00\nFAULT FOUND".toList)) =
      "WORKSTEP ADDED BY JOHN ON 01/02/2024, 10:00\nFAULT FOUND".toList ∧
    ("workstep added by ".toList).isPrefixOf
        (lowerStr ("WORKSTEP ADDED BY JOHN ON 01/02/2024, 10:00".toList)) = true :=
  ⟨by decide, by decide⟩

/-- Declarative reading of the four metadata patterns on the stripped,
upper-cased line: some decomposition witnessing the regex exists. -/
def MetaLineSpec (line : PyStr) : Prop :=
  (∃ r, PMatch metaPat1 (upperStr (pyStrip line)) r) ∨
  (∃ r, PMatch metaPat2 (upperStr (pyStrip line)) r) ∨
  (∃ r, PMatch metaPat3 (upperStr (pyStrip line)) r) ∨
  (∃ r, PMatch metaPat4 (upperStr (pyStrip line)) r)

theorem isMetaLine_iff (line : PyStr) : isMetaLine line = true ↔ MetaLineSpec line := by
  simp [isMetaLine, MetaLineSpec, pMatch_isSome_iff sepOK_metaPat1,
    pMatch_isSome_iff sepOK_metaPat2, pMatch_isSome_iff sepOK_metaPat3,
    pMatch_isSome_iff sepOK_metaPat4, or_assoc]

/-- C8 amended: `clean_amos_metadata` strips the text, splits it into
lines, removes exactly the lines whose stripped upper-cased form matches
one of the four boilerplate patterns — where the workstep pattern requires
a leading workstep number, `<number> workstep added by <user> on
<timestamp>` — re-joins with newlines, strips, and collapses every run of
consecutive newlines (also across whitespace-only lines) into one single
newline; lines merely containing the phrases mid-sentence are kept
unchanged. -/
theorem claim8_clean_metadata_amended (text : PyStr) :
    (∀ l : PyStr, isMetaLine l = true ↔ MetaLineSpec l) ∧
    clean_amos_metadata (some text) =
      collapseNl (pyStrip (List.intercalate ['\n']
        ((pySplitNl (pyStrip text)).filter (fun l => !(isMetaLine l))))) ∧
    clean_amos_metadata (some ("SEE ACTION PERFORMED BY X ON GROUND".toList)) =
      "SEE ACTION PERFORMED BY X ON GROUND".toList ∧
    clean_amos_metadata (some "A\n\n\nB".toList) = "A\nB".toList := by
  refine ⟨isMetaLine_iff, ?_, by decide, by decide⟩
  by_cases h : text = []
  · subst h; decide
  · simp [clean_amos_metadata, h]

/-! ## Claims 1 and 7: the conclusion engine (`determine_conclusion`)

Timestamps are calendar tuples; `pd.NaT` is `none`.  `Timestamp.date()`
projects to the calendar date, `NaT.date()` is `NaT` (pandas GH 9513), and
every ordered comparison involving `NaT` is `False`. -/

/-- A `pd.Timestamp`: a calendar date plus a time-of-day in arbitrary
sub-day units. -/
structure PyTimestamp where
  year : Nat
  month : Nat
  day : Nat
  tod : Nat
deriving DecidableEq, Repr

/-- Python `Timestamp.date()`: the calendar date. -/
def dateTriple (t : PyTimestamp) : Nat × Nat × Nat := (t.year, t.month, t.day)

/-- Strict `<` on calendar dates. -/
def tripleLtB : Nat × Nat × Nat → Nat × Nat × Nat → Bool
  | (y1, m1, d1), (y2, m2, d2) =>
    Nat.blt y1 y2 || (y1 == y2 && (Nat.blt m1 m2 || (m1 == m2 && Nat.blt d1 d2)))

/-- Comparison `a.date() > b.date()` where either timestamp may be `NaT`: pandas
returns `False` whenever `NaT` is involved. -/
def dateGtOpt (a b : Option PyTimestamp) : Bool :=
  match a, b with
  | some x, some y => tripleLtB (dateTriple y) (dateTriple x)
  | _, _ => false

/-- Source: `src/analysis.py` lines 32-40 (`WorkOrderEvent`). -/
structure WorkOrderEvent where
  wo : PyStr
  description : PyStr
  action : PyStr
  action_type : String
  wo_type : PyStr
  issued_date : Option PyTimestamp
deriving DecidableEq, Repr, Inhabited

/-- Source: `src/analysis.py` lines 324-328: the loop retaining the last event of
the sequence classified CORRECTIVE_ACTION. -/
def lastCorrective (events : List WorkOrderEvent) : Option WorkOrderEvent :=
  events.foldl
    (fun acc e => if e.action_type = "CORRECTIVE_ACTION" then some e else acc) none

/-- Source: `src/analysis.py` lines 301-341 (`determine_conclusion`).  The guard of
line 331 (`if not last_corrective_event`) is kept even though a dataclass
instance is always truthy in Python, so with a corrective event present the
`none` branch is unreachable; a `NaT` reference date flows through the
date comparisons, which are all `False` on `NaT`. -/
def determine_conclusion (events : List WorkOrderEvent) : String :=
  if events.length = 1 then "SINGLE_EVENT"
  else if !(events.any (fun e => e.action_type == "CORRECTIVE_ACTION")) then
    "RESET_ONLY_REPEAT"
  else
    match lastCorrective events with
    | none => "RESET_ONLY_REPEAT"
    | some lc =>
      if events.any (fun e => dateGtOpt e.issued_date lc.issued_date) then
        "CORRECTIVE_NOT_EFFECTIVE"
      else "CORRECTIVE_OK"

/-- Calendar-date non-decreasing order of a sequence, with the comparison
of the code (`False` on any missing date). -/
def chronologicalB : List WorkOrderEvent → Bool
  | [] => true
  | [_] => true
  | a :: b :: t => !(dateGtOpt a.issued_date b.issued_date) && chronologicalB (b :: t)

theorem foldl_keepLast_none {l : List WorkOrderEvent}
    (h : ∀ e ∈ l, e.action_type ≠ "CORRECTIVE_ACTION") (acc : Option WorkOrderEvent) :
    l.foldl (fun acc e => if e.action_type = "CORRECTIVE_ACTION" then some e else acc)
      acc = acc := by
  induction l generalizing acc with
  | nil => rfl
  | cons e t ih =>
    rw [List.foldl_cons, if_neg (h e (by simp))]
    exact ih (fun x hx => h x (by simp [hx])) acc

/-- The fold of lines 324-328 returns exactly the last corrective event of
the sequence. -/
theorem lastCorrective_spec {pre post : List WorkOrderEvent} {lc : WorkOrderEvent}
    (hlc : lc.action_type = "CORRECTIVE_ACTION")
    (hpost : ∀ e ∈ post, e.action_type ≠ "CORRECTIVE_ACTION") :
    lastCorrective (pre ++ lc :: post) = some lc := by
  unfold lastCorrective
  rw [List.foldl_append, List.foldl_cons, if_pos hlc]
  exact foldl_keepLast_none hpost (some lc)

/-- C1: on a non-empty, chronologically ordered, fully dated event
sequence, `determine_conclusion` returns SINGLE_EVENT for one event;
RESET_ONLY_REPEAT for two or more events none of which is corrective; and
otherwise, with the calendar date of the last corrective event of the
sequence as reference, CORRECTIVE_NOT_EFFECTIVE exactly when some event's
calendar date is strictly later than the reference date and CORRECTIVE_OK
when none is (same-day events never count as recurrence). -/
theorem claim1_determine_conclusion_policy (events : List WorkOrderEvent)
    (hne : events ≠ [])
    (hdated : events.all (fun e => e.issued_date.isSome) = true)
    (hchrono : chronologicalB events = true) :
    (events.length = 1 → determine_conclusion events = "SINGLE_EVENT") ∧
    (2 ≤ events.length →
      (∀ e ∈ events, e.action_type ≠ "CORRECTIVE_ACTION") →
      determine_conclusion events = "RESET_ONLY_REPEAT") ∧
    (∀ pre lc post, events = pre ++ lc :: post →
      lc.action_type = "CORRECTIVE_ACTION" →
      (∀ e ∈ post, e.action_type ≠ "CORRECTIVE_ACTION") →
      2 ≤ events.length →
      ((∃ e ∈ events, ∃ de dl, e.issued_date = some de ∧ lc.issued_date = some dl ∧
          tripleLtB (dateTriple dl) (dateTriple de) = true) →
        determine_conclusion events = "CORRECTIVE_NOT_EFFECTIVE") ∧
      ((∀ e ∈ events, ∀ de dl, e.issued_date = some de → lc.issued_date = some dl →
          tripleLtB (dateTriple dl) (dateTriple de) = false) →
        determine_conclusion events = "CORRECTIVE_OK")) := by
  refine ⟨?_, ?_, ?_⟩
  · intro h1
    simp [determine_conclusion, h1]
  · intro hlen hnone
    have h1 : events.length ≠ 1 := by omega
    have hany : events.any (fun e => e.action_type == "CORRECTIVE_ACTION") = false := by
      rw [List.any_eq_false]
      intro e he
      simpa using hnone e he
    simp [determine_conclusion, h1, hany]
  · intro pre lc post hdec hlc hpost hlen
    have h1 : events.length ≠ 1 := by omega
    have hmem : lc ∈ events := by
      rw [hdec]; exact List.mem_append_right _ (by simp)
    have hany : events.any (fun e => e.action_type == "CORRECTIVE_ACTION") = true := by
      rw [List.any_eq_true]
      exact ⟨lc, hmem, by simp [hlc]⟩
    have hlast : lastCorrective events = some lc := by
      rw [hdec]; exact lastCorrective_spec hlc hpost
    have hdc : determine_conclusion events =
        (if events.any (fun e => dateGtOpt e.issued_date lc.issued_date) then
          "CORRECTIVE_NOT_EFFECTIVE" else "CORRECTIVE_OK") := by
      simp [determine_conclusion, h1, hany, hlast]
    constructor
    · rintro ⟨e, he, de, dl, hde, hdl, hlt⟩
      have hs : events.any (fun e => dateGtOpt e.issued_date lc.issued_date) = true := by
        rw [List.any_eq_true]
        exact ⟨e, he, by simp [dateGtOpt, hde, hdl, hlt]⟩
      simp [hdc, hs]
    · intro hall
      have hs : events.any (fun e => dateGtOpt e.issued_date lc.issued_date) = false := by
        rw [List.any_eq_false]
        intro e he
        obtain ⟨de, hde⟩ : ∃ de, e.issued_date = some de :=
          Option.isSome_iff_exists.mp (List.all_eq_true.mp hdated e he)
        obtain ⟨dl, hdl⟩ : ∃ dl, lc.issued_date = some dl :=
          Option.isSome_iff_exists.mp (List.all_eq_true.mp hdated lc hmem)
        simp [dateGtOpt, hde, hdl, hall e he de dl hde hdl]
      simp [hdc, hs]

/-- Day-1 reset event of the specification's three-event example. -/
def evReset1 : WorkOrderEvent :=
  { wo := "1001".toList, description := "FAULT MSG".toList,
    action := "SYSTEM RESET PERFORMED".toList, action_type := "RESET_ONLY",
    wo_type := "M".toList, issued_date := some ⟨2024, 3, 1, 0⟩ }

/-- Day-1 corrective event of the specification's three-event example. -/
def evCorr1 : WorkOrderEvent :=
  { wo := "1002".toList, description := "FAULT MSG".toList,
    action := "REPLACED VALVE".toList, action_type := "CORRECTIVE_ACTION",
    wo_type := "M".toList, issued_date := some ⟨2024, 3, 1, 1⟩ }

/-- Second day-1 reset event (same calendar day as the corrective). -/
def evReset2 : WorkOrderEvent :=
  { wo := "1003".toList, description := "FAULT MSG".toList,
    action := "OPS TEST OK".toList, action_type := "RESET_ONLY",
    wo_type := "M".toList, issued_date := some ⟨2024, 3, 1, 2⟩ }

/-- Witness for C1: the specification's example — reset, corrective and a
same-day reset — concludes CORRECTIVE_OK, since no event is dated strictly
after the corrective's calendar day. -/
theorem claim1_witness :
    determine_conclusion [evReset1, evCorr1, evReset2] = "CORRECTIVE_OK" := by
  have h := (claim1_determine_conclusion_policy [evReset1, evCorr1, evReset2]
    (by decide) (by decide) (by decide)).2.2 [evReset1] evCorr1 [evReset2]
    rfl (by rfl) (by decide) (by decide)
  refine h.2 ?_
  intro e he de dl hde hdl
  simp only [List.mem_cons, List.not_mem_nil, or_false] at he
  rcases he with rfl | rfl | rfl <;>
    · simp only [evReset1, evCorr1, evReset2, Option.some_inj] at hde hdl
      subst hde
      subst hdl
      decide

/-- A reset event dated day 1, for the unresolvable-reference-date case. -/
def ev7_reset : WorkOrderEvent :=
  { wo := "2001".toList, description := "FAULT MSG".toList,
    action := "SYSTEM RESET PERFORMED".toList, action_type := "RESET_ONLY",
    wo_type := "M".toList, issued_date := some ⟨2024, 4, 1, 0⟩ }

/-- A corrective event whose issue date is unparsable (`NaT`). -/
def ev7_corrective : WorkOrderEvent :=
  { wo := "2002".toList, description := "FAULT MSG".toList,
    action := "REPLACED VALVE".toList, action_type := "CORRECTIVE_ACTION",
    wo_type := "M".toList, issued_date := none }

/-- C7 fails: on a two-event sequence whose last corrective event has no
resolvable date, `determine_conclusion` does not return the claimed
RESET_ONLY_REPEAT fallback.  The guard `if not last_corrective_event` of
line 331 can never fire once a corrective event exists (a dataclass
instance is always truthy), so the `NaT` reference date flows into the
comparisons, which are all `False` on `NaT`, and the function returns
CORRECTIVE_OK. -/
theorem claim7_unresolvable_reference_date :
    determine_conclusion [ev7_reset, ev7_corrective] = "CORRECTIVE_OK" ∧
    lastCorrective [ev7_reset, ev7_corrective] = some ev7_corrective ∧
    ev7_corrective.action_type = "CORRECTIVE_ACTION" ∧
    ev7_corrective.issued_date = none ∧
    ("CORRECTIVE_OK" : String) ≠ "RESET_ONLY_REPEAT" :=
  ⟨by decide, by decide, rfl, rfl, by decide⟩

/-! ## Claims 6 and 9: the analysis pipeline (`analyze_work_orders`)

The embedding starts after column normalisation, `normalize_type` and
`pd.to_datetime(..., errors='coerce')`: a row carries the canonical cell
values, a missing cell (`NaN`/`NaT`) being `none`.  Raised exceptions are
threaded with `Except`: `NaT.strftime` raises `ValueError`, and the
`isinstance(event.issued_date, datetime)` test of line 293 is true for
`NaT`, which subclasses `datetime`.  The per-group `sort_values` of line
490 orders by issue date with missing dates last; it is modelled here by a
comparison-sort on that key (pandas' default numpy quicksort guarantees no
particular order of equal keys, see the analysis of the grouping claim). -/

inductive PyErr : Type where
  | valueError : PyErr
deriving DecidableEq, Repr

/-- One input row after column normalisation: canonical cells `A/C`,
`ATA`, `WO`, `W/O Description`, `ATA Description`, `W/O Action`, `Type`
and the coerced issue date. -/
structure Row where
  ac : Option PyStr
  ata : Option PyStr
  wo : Option PyStr
  wo_desc : Option PyStr
  ata_desc : Option PyStr
  action : Option PyStr
  rtype : Option PyStr
  issued : Option PyTimestamp
deriving DecidableEq, Repr

/-- Python `str(x)` on a possibly-missing cell: `str(nan)` is `"nan"`. -/
def pyStrOf (v : Option PyStr) : PyStr :=
  match v with
  | none => "nan".toList
  | some s => s

/-- Source: `src/analysis.py` lines 472-479: the corrected chapter of one row.
The description argument is the stringified concatenation of the W/O and
ATA descriptions; the action cell is passed through unchanged. -/
def ata_corrected (r : Row) : PyStr :=
  extract_ata_from_text (some (pyStrOf r.wo_desc ++ ' ' :: pyStrOf r.ata_desc))
    r.action r.ata

/-- Source: `src/analysis.py` lines 494-513: build one event from one row.  The
classification runs on the raw action cell (line 495); the sanitizer is
applied afterwards, only to the stored description and action strings
(lines 503-504). -/
def makeEvent (r : Row) : WorkOrderEvent :=
  let d0 : Option PyStr :=
    match r.wo_desc with
    | none => r.ata_desc
    | some s => if pyStrip s = [] then r.ata_desc else some s
  { wo := pyStrOf r.wo
    description := clean_amos_metadata d0
    action := clean_amos_metadata r.action
    action_type := classify_action r.action
    wo_type := pyStrOf r.rtype
    issued_date := r.issued }

/-- Zero-padded decimal of width 2 (`strftime` `%d` and `%m`). -/
def pad2 (n : Nat) : PyStr :=
  let ds := Nat.toDigits 10 n
  if ds.length < 2 then '0' :: ds else ds

/-- Zero-padded decimal of width 4 (`strftime` `%Y`). -/
def pad4 (n : Nat) : PyStr :=
  List.replicate (4 - (Nat.toDigits 10 n).length) '0' ++ Nat.toDigits 10 n

/-- Python `Timestamp.strftime('%d/%m')`; `NaT.strftime` raises
`ValueError: NaTType does not support strftime`. -/
def strftimeDayMonth (t : Option PyTimestamp) : Except PyErr PyStr :=
  match t with
  | none => Except.error PyErr.valueError
  | some ts => Except.ok (pad2 ts.day ++ '/' :: pad2 ts.month)

/-- Python `Timestamp.strftime('%d/%m/%Y')` (its only call site, line 519, is
guarded by `pd.notna`). -/
def strftimeFull (ts : PyTimestamp) : PyStr :=
  pad2 ts.day ++ '/' :: pad2 ts.month ++ '/' :: pad4 ts.year

/-- Source: `src/analysis.py` lines 289-298 (`create_timeline_summary`).  Both
`Timestamp` and `NaT` are `datetime` instances, so line 293 always takes
the `strftime` branch — which raises on `NaT`. -/
def create_timeline_summary (events : List WorkOrderEvent) : Except PyErr PyStr := do
  let summaries ← events.mapM (fun e => do
    let dateStr ← strftimeDayMonth e.issued_date
    let descShort :=
      if 50 < e.description.length then e.description.take 50 ++ "...".toList
      else e.description
    let actionShort :=
      if 30 < e.action.length then e.action.take 30 ++ "...".toList
      else e.action
    let typeStr : PyStr :=
      if e.wo_type = [] then [] else '[' :: e.wo_type ++ [']']
    Except.ok (dateStr ++ ' ' :: typeStr ++ ':' :: ' ' :: descShort ++
      ' ' :: '→' :: ' ' :: actionShort))
  Except.ok (List.intercalate ("; ".toList) summaries)

/-- Source: `src/analysis.py` lines 43-53 (`AnalysisResult`). -/
structure AnalysisResult where
  aircraft : PyStr
  ata : PyStr
  ata_2digit : PyStr
  wo_count : Nat
  conclusion : String
  dates : List PyStr
  timeline_summary : PyStr
  events : List WorkOrderEvent
deriving DecidableEq, Repr, Inhabited

/-- Lexicographic `<` on Python strings (code-point order). -/
def pyStrLt : PyStr → PyStr → Bool
  | [], [] => false
  | [], _ :: _ => true
  | _ :: _, [] => false
  | a :: as, b :: bs => if a < b then true else if b < a then false else pyStrLt as bs

/-- Group-key `≤`: Python tuple order on (aircraft, corrected chapter),
used because `groupby(sort=True)` emits groups in sorted key order. -/
def keyLe (k1 k2 : PyStr × PyStr) : Bool :=
  pyStrLt k1.1 k2.1 || (k1.1 == k2.1 && (pyStrLt k1.2 k2.2 || k1.2 == k2.2))

/-- Timestamp `≤` with missing dates last (`sort_values` keeps `NaT` keys
at the end). -/
def tsLeNaTLast : Option PyTimestamp → Option PyTimestamp → Bool
  | _, none => true
  | none, some _ => false
  | some a, some b =>
    Nat.blt a.year b.year || (a.year == b.year && (Nat.blt a.month b.month ||
      (a.month == b.month && (Nat.blt a.day b.day ||
        (a.day == b.day && Nat.ble a.tod b.tod)))))

/-- First-occurrence deduplication of group keys. -/
def dedupKeys : List (PyStr × PyStr) → List (PyStr × PyStr) → List (PyStr × PyStr)
  | _, [] => []
  | seen, k :: ks =>
    if seen.contains k then dedupKeys seen ks else k :: dedupKeys (k :: seen) ks

/-- Source: `src/analysis.py` lines 433-538 (`analyze_work_orders`), entered after
column/type normalisation and date coercion, with the required columns
present and the optional Type-S row filter (`exclude_type_s`, default
`False`) not engaged: drop excluded chapters
(line 461 via lines 269-286), compute the corrected chapter per row
(lines 472-479), group by (aircraft, corrected chapter) — keys sorted and
unique, rows with a missing aircraft dropped by `groupby`'s `dropna` —
then per group: sort rows by issue date (missing last), build events,
conclude, and render dates and timeline (the latter raising `ValueError`
whenever any event of any surviving group has an unparsable date). -/
def analyze_work_orders (rows : List Row) : Except PyErr (List AnalysisResult) := do
  let fr := rows.filter (fun r => !(should_exclude_ata r.ata))
  let keys := (dedupKeys []
      (fr.filterMap (fun r => r.ac.map (fun a => (a, ata_corrected r))))).insertionSort
      (fun k1 k2 => keyLe k1 k2 = true)
  keys.mapM (fun k => do
    let grp := fr.filter (fun r => r.ac == some k.1 && ata_corrected r == k.2)
    let srt := grp.insertionSort (fun r1 r2 => tsLeNaTLast r1.issued r2.issued = true)
    let events := srt.map makeEvent
    let timeline ← create_timeline_summary events
    Except.ok
      { aircraft := k.1
        ata := k.2
        ata_2digit := get_ata_2digit (some k.2)
        wo_count := events.length
        conclusion := determine_conclusion events
        dates := events.map (fun e =>
          match e.issued_date with
          | some ts => strftimeFull ts
          | none => [])
        timeline_summary := timeline
        events := events })

/-- A single work-order row whose issue date failed to parse (`NaT`). -/
def rowUndated : Row :=
  { ac := some "VN-A321".toList, ata := some "21-50".toList, wo := some "3001".toList,
    wo_desc := some "PACK 1 FAULT".toList, ata_desc := none,
    action := some "SYSTEM RESET PERFORMED".toList, rtype := some "M".toList,
    issued := none }

deriving instance DecidableEq for Except

/-- C6 fails on undated records: the whole analysis raises instead of
producing results with the undated events placed last, because
`create_timeline_summary` calls `strftime` on every event date and
`NaT.strftime` raises `ValueError` (the `pd.notna` guard of line 519
protects the `dates` list but line 293 has no working guard: `NaT` is a
`datetime` instance). -/
theorem claim6_analyze_raises_on_undated :
    analyze_work_orders [rowUndated] = Except.error PyErr.valueError := by decide

/-- A row whose raw action cell starts with a removable workstep line
naming the user `INSTALLER`, followed by a pure reset action. -/
def rowNine : Row :=
  { ac := some "VN-A322".toList, ata := some "21-50".toList, wo := some "4001".toList,
    wo_desc := some "AVNCS FAULT MSG".toList, ata_desc := none,
    action := some
      ("1 WORKSTEP ADDED BY INSTALLER ON 01/02/2024, 10:00\nSYSTEM RESET PERFORMED".toList),
    rtype := some "M".toList, issued := some ⟨2024, 2, 1, 0⟩ }

/-- C9 fails as stated: `analyze_work_orders` classifies the raw action
cell, not the sanitized text.  On `rowNine` the stored classification is
CORRECTIVE_ACTION (the keyword `install` occurs inside the boilerplate
word `INSTALLER`), while classifying the sanitized action text — the
boilerplate line removed — gives RESET_ONLY. -/
theorem claim9_counterexample :
    (analyze_work_orders [rowNine]).map
        (fun rs => rs.map (fun r => r.events.map (fun e => e.action_type))) =
      Except.ok [["CORRECTIVE_ACTION"]] ∧
    classify_action (some (clean_amos_metadata rowNine.action)) = "RESET_ONLY" ∧
    clean_amos_metadata rowNine.action = "SYSTEM RESET PERFORMED".toList :=
  ⟨by decide, by decide, by decide⟩

theorem except_bind_ok {α β : Type} {x : Except PyErr α} {g : α → Except PyErr β} {c : β}
    (h : x >>= g = Except.ok c) : ∃ v, x = Except.ok v ∧ g v = Except.ok c := by
  cases x with
  | error e => exact absurd h (by simp [Bind.bind, Except.bind])
  | ok v => exact ⟨v, rfl, h⟩

theorem mapM_ok_mem {α β : Type} {f : α → Except PyErr β} {l : List α} {res : List β}
    (h : l.mapM f = Except.ok res) : ∀ b ∈ res, ∃ a ∈ l, f a = Except.ok b := by
  induction l generalizing res with
  | nil =>
    simp only [List.mapM_nil] at h
    cases h
    simp
  | cons a t ih =>
    rw [List.mapM_cons] at h
    obtain ⟨b, hfa, h2⟩ := except_bind_ok h
    obtain ⟨bs, hft, h3⟩ := except_bind_ok h2
    have hres : b :: bs = res := by
      simpa [Pure.pure, Except.pure] using h3
    subst hres
    intro x hx
    rcases List.mem_cons.mp hx with rfl | hx
    · exact ⟨a, by simp, hfa⟩
    · obtain ⟨a', ha', hfa'⟩ := ih hft x hx
      exact ⟨a', by simp [ha'], hfa'⟩

/-- C9 amended: every event stored in an `AnalysisResult` of
`analyze_work_orders` is `makeEvent` of some input row; its stored
classification is `classify_action` of the raw action cell, while the
sanitizer is applied only to the stored description and action strings —
so component 2 (the sanitizer) does not precede component 4 (the
classifier), and the stored label can differ from the label of the
sanitized text. -/
theorem claim9_classification_uses_raw_action (rows : List Row)
    (results : List AnalysisResult)
    (hok : analyze_work_orders rows = Except.ok results) :
    ∀ res ∈ results, ∀ e ∈ res.events,
      ∃ r ∈ rows, e = makeEvent r ∧ e.action_type = classify_action r.action ∧
        e.action = clean_amos_metadata r.action := by
  intro res hres e he
  unfold analyze_work_orders at hok
  obtain ⟨k, -, hkok⟩ := mapM_ok_mem hok res hres
  obtain ⟨tl, -, hres'⟩ := except_bind_ok hkok
  injection hres' with hR
  subst hR
  simp only [List.mem_map] at he
  obtain ⟨r, hr, rfl⟩ := he
  have hr2 := (List.mem_insertionSort _).mp hr
  have hr3 : r ∈ rows := List.mem_of_mem_filter (List.mem_of_mem_filter hr2)
  exact ⟨r, hr3, rfl, rfl, rfl⟩

/-- The single result of analysing `rowNine`. -/
def resNine : AnalysisResult :=
  ((analyze_work_orders [rowNine]).toOption.getD []).head!

/-- Witness for the amended C9 at rowNine: its stored event is the event
built from the raw row, classified from the raw action text. -/
theorem claim9_witness :
    ∃ r ∈ [rowNine], resNine.events.head! = makeEvent r ∧
      (resNine.events.head!).action_type = classify_action r.action ∧
      (resNine.events.head!).action = clean_amos_metadata r.action := by
  have h := claim9_classification_uses_raw_action [rowNine] [resNine] (by decide)
  exact h resNine (by simp) (resNine.events.head!) (by decide)

theorem tsLe_total (a b : Option PyTimestamp) :
    tsLeNaTLast a b = true ∨ tsLeNaTLast b a = true := by
  cases a with
  | none => cases b with
    | none => simp [tsLeNaTLast]
    | some y => simp [tsLeNaTLast]
  | some x =>
    cases b with
    | none => simp [tsLeNaTLast]
    | some y =>
      simp only [tsLeNaTLast, Bool.or_eq_true, Bool.and_eq_true, Nat.blt_eq,
        beq_iff_eq, Nat.ble_eq]
      omega

theorem tsLe_trans {a b c : Option PyTimestamp} (h1 : tsLeNaTLast a b = true)
    (h2 : tsLeNaTLast b c = true) : tsLeNaTLast a c = true := by
  cases c with
  | none => cases a <;> simp [tsLeNaTLast]
  | some z =>
    cases b with
    | none => exact absurd h2 (by simp [tsLeNaTLast])
    | some y =>
      cases a with
      | none => exact absurd h1 (by simp [tsLeNaTLast])
      | some x =>
        simp only [tsLeNaTLast, Bool.or_eq_true, Bool.and_eq_true, Nat.blt_eq,
          beq_iff_eq, Nat.ble_eq] at h1 h2 ⊢
        omega

/-- The parts of the grouping invariant the code does guarantee on a run
that completes without raising: each result's event sequence is ordered by
non-decreasing issue date with the missing-date events at the end, and each
stored event is built from an input row carrying exactly the result's
aircraft and corrected chapter.  (The equal-date tie-break of the original
record order is a property of the sorting algorithm, which the source
leaves at the pandas default, an unstable quicksort.) -/
theorem analyze_events_invariant (rows : List Row) (results : List AnalysisResult)
    (hok : analyze_work_orders rows = Except.ok results) :
    ∀ res ∈ results,
      List.Chain' (fun e1 e2 => tsLeNaTLast e1.issued_date e2.issued_date = true)
        res.events ∧
      ∀ e ∈ res.events, ∃ r ∈ rows, e = makeEvent r ∧
        r.ac = some res.aircraft ∧ ata_corrected r = res.ata := by
  intro res hres
  unfold analyze_work_orders at hok
  obtain ⟨k, -, hkok⟩ := mapM_ok_mem hok res hres
  obtain ⟨tl, -, hres'⟩ := except_bind_ok hkok
  injection hres' with hR
  subst hR
  refine ⟨?_, ?_⟩
  · letI : DecidableRel (fun r1 r2 : Row => tsLeNaTLast r1.issued r2.issued = true) :=
      fun a b => instDecidableEqBool (tsLeNaTLast a.issued b.issued) true
    haveI : IsTotal Row (fun r1 r2 : Row => tsLeNaTLast r1.issued r2.issued = true) :=
      ⟨fun a b => tsLe_total a.issued b.issued⟩
    haveI : IsTrans Row (fun r1 r2 : Row => tsLeNaTLast r1.issued r2.issued = true) :=
      ⟨fun _ _ _ hab hbc => tsLe_trans hab hbc⟩
    have hsorted := List.sorted_insertionSort
      (fun r1 r2 : Row => tsLeNaTLast r1.issued r2.issued = true)
      ((rows.filter (fun r => !(should_exclude_ata r.ata))).filter
        (fun r => r.ac == some k.1 && ata_corrected r == k.2))
    exact List.Pairwise.chain'
      (List.pairwise_map.mpr (List.Pairwise.imp
        (fun {a b : Row} (h : tsLeNaTLast a.issued b.issued = true) => h) hsorted))
  · intro e he
    simp only [List.mem_map] at he
    obtain ⟨r, hr, rfl⟩ := he
    have hr2 := (List.mem_insertionSort _).mp hr
    have hcond := List.of_mem_filter hr2
    simp only [Bool.and_eq_true, beq_iff_eq] at hcond
    exact ⟨r, List.mem_of_mem_filter (List.mem_of_mem_filter hr2), rfl,
      hcond.1, hcond.2⟩
